import Mathlib

/-!
Shallow embedding of the conf2md exporter (src/export_confluence.py and
src/export_html_to_md.py) and proofs about its link-rewriting and
path-assignment engine.

Modelling conventions:
* A filesystem path is the list of its segments below the root (`FsPath`);
  all paths handled by the program are absolute and normalised (the code
  resolves its roots with `Path.resolve()`), and rendering joins segments
  with forward slashes, so `rel.replace(backslash, slash)` is the identity
  in this model.
* `os.path.relpath` is purely lexical (normalise both arguments, drop the
  common prefix, prepend one ".." per remaining segment of the start);
  `relpathSegs` mirrors that.  `Path.resolve()` is modelled as lexical
  normalisation (no symlinks in scope).
* Markup is modelled by the sequence of href/src attribute values that
  BeautifulSoup's find_all(["a", "img"]) yields, `none` for a tag without
  the attribute; str(soup) reassembles the surrounding text unchanged, so
  claims about "link and image attributes" are claims about this list.
* Percent-decoding (urllib unquote) is modelled byte-for-byte for ASCII
  escapes; multi-byte UTF-8 escapes do not occur in the inputs considered.
* re's \d is modelled over the ASCII digits (page ids in this system are
  decimal strings), and Python's lower() over the ASCII range.
-/

namespace Conf2Md

/-- A filesystem path: the list of its segments below the root. -/
abbrev FsPath := List String

/-- Render a path with forward slashes (POSIX rendering, `as_posix`). -/
def renderPath (p : FsPath) : String := String.intercalate "/" p

/-- Drop the common leading segments of two segment lists, as
`posixpath.relpath` does with its common-prefix computation. -/
def dropCommon : FsPath → FsPath → FsPath × FsPath
  | t :: ts, s :: ss => if t = s then dropCommon ts ss else (t :: ts, s :: ss)
  | ts, ss => (ts, ss)

/-- `posixpath.relpath(target, start)` on already-normalised absolute
segment lists: one ".." per segment of `start` outside the common prefix,
then the rest of `target`; "." when the two coincide. -/
def relpathSegs (target start : FsPath) : FsPath :=
  let p := dropCommon target start
  let rel := p.2.map (fun _ => "..") ++ p.1
  if rel.isEmpty then ["."] else rel

/-- Lexical path normalisation (what `os.path.normpath` / `Path.resolve()`
do to an absolute path with no symlinks): drop "" and "." segments, let
".." cancel the preceding segment (and vanish at the root). -/
def resolveNorm (segs : List String) : FsPath :=
  segs.foldl
    (fun acc s =>
      if s = "" || s = "." then acc
      else if s = ".." then acc.dropLast
      else acc ++ [s])
    []

/-- str.split for a one-character separator, charwise (the same function
as String.splitOn on these inputs, written by structural recursion so the
kernel can evaluate it). -/
def splitOnChar (sep : Char) : List Char → List (List Char)
  | [] => [[]]
  | x :: xs =>
    let r := splitOnChar sep xs
    if x == sep then [] :: r
    else
      match r with
      | h :: t => (x :: h) :: t
      | [] => [[x]]

/-- str.startsWith, charwise. -/
def startsWithL (s pre : String) : Bool :=
  pre.data.isPrefixOf s.data

/-- A string as pathlib segments: split on "/"; empty and "." segments
vanish at construction, ".." is kept. -/
def fnSegs (s : String) : List String :=
  ((splitOnChar '/' s.data).map String.mk).filter (fun seg => seg != "" && seg != ".")

/-- `pathlib`'s `p / s`: a leading "/" makes `s` replace `p`. -/
def pyJoin (base : FsPath) (s : String) : FsPath :=
  if startsWithL s "/" then fnSegs s else base ++ fnSegs s

/-- `replace_to_relative` of export_confluence.rewrite_links (also the
relpath+slash computation of export_html_to_md.rewrite_links):
`os.path.relpath(target, current_md_path.parent)` rendered with forward
slashes; relpath normalises both of its arguments first. -/
def replace_to_relative (current_parent : FsPath) (target : FsPath) : String :=
  renderPath (relpathSegs (resolveNorm target) (resolveNorm current_parent))

/-- A match of the regex `[?&]pageId=(\d+)` anchored at the head of the
list: the captured (maximal, nonempty) digit run. -/
def pageIdAt : List Char → Option (List Char)
  | [] => none
  | c :: rest =>
    if (c == '?' || c == '&') && "pageId=".toList.isPrefixOf rest then
      let ds := (rest.drop 7).takeWhile Char.isDigit
      if ds.isEmpty then none else some ds
    else none

/-- `re.search(r"[?&]pageId=(\d+)", url)`: the capture of the leftmost
match, scanning positions left to right. -/
def searchPageId : List Char → Option (List Char)
  | [] => none
  | c :: rest =>
    match pageIdAt (c :: rest) with
    | some ds => some ds
    | none => searchPageId rest

/-- A match of `/download/attachments/(\d+)/([^?]+)` anchored at the head:
(page-id digits, filename that runs greedily up to a "?" or the end). -/
def attachAt (l : List Char) : Option (List Char × List Char) :=
  if "/download/attachments/".toList.isPrefixOf l then
    let rest := l.drop 22
    let ds := rest.takeWhile Char.isDigit
    if ds.isEmpty then none
    else
      match rest.drop ds.length with
      | '/' :: rest2 =>
        let fn := rest2.takeWhile (fun c => c != '?')
        if fn.isEmpty then none else some (ds, fn)
      | _ => none
  else none

/-- `re.search(r"/download/attachments/(\d+)/([^?]+)", url)`: captures of
the leftmost match. -/
def searchAttach : List Char → Option (List Char × List Char)
  | [] => none
  | c :: rest =>
    match attachAt (c :: rest) with
    | some r => some r
    | none => searchAttach rest

namespace ExportConfluence

/-- One href/src attribute value through the body of the tag loop of
export_confluence.rewrite_links: a `pageId` match is resolved through the
index (and the tag is left alone when the id is unknown, `continue`);
otherwise a download-attachments match is redirected into the page's
attachment directory; anything else is untouched. -/
def rewriteUrl (page_id_to_md : String → Option FsPath) (current_parent : FsPath)
    (attachment_dir : FsPath) (url : String) : String :=
  match searchPageId url.toList with
  | some ds =>
    match page_id_to_md (String.mk ds) with
    | some target => replace_to_relative current_parent target
    | none => url
  | none =>
    match searchAttach url.toList with
    | some (_, fn) =>
      replace_to_relative current_parent (pyJoin attachment_dir (String.mk fn))
    | none => url

/-- export_confluence.rewrite_links over a markup (its href/src attribute
values, see the module docstring): missing and empty attributes are
skipped (`if not url: continue`), every other one goes through
`rewriteUrl` with the current page's output directory. -/
def rewrite_links (page_id_to_md : String → Option FsPath) (current_md_path : FsPath)
    (attachment_dir : FsPath) (markup : List (Option String)) : List (Option String) :=
  markup.map (fun attrVal =>
    match attrVal with
    | none => none
    | some url =>
      if url = "" then some url
      else some (rewriteUrl page_id_to_md current_md_path.dropLast attachment_dir url))

end ExportConfluence

/-- The whitespace characters of Python's str.strip() and of re's \s that
can survive into a title (ASCII range). -/
def pyIsSpace (c : Char) : Bool :=
  c == ' ' || c == '\t' || c == '\n' || c == '\r' || c == '\x0b' || c == '\x0c'

/-- str.strip(): drop whitespace from both ends. -/
def pyStrip (l : List Char) : List Char :=
  ((l.dropWhile pyIsSpace).reverse.dropWhile pyIsSpace).reverse

/-- The character class [a-z0-9а-яё\-_ ] with re.IGNORECASE: what the first
re.sub of slugify keeps. -/
def slugAllowed (c : Char) : Bool :=
  decide (('a' ≤ c ∧ c ≤ 'z') ∨ ('A' ≤ c ∧ c ≤ 'Z') ∨ ('0' ≤ c ∧ c ≤ '9') ∨
    ('а' ≤ c ∧ c ≤ 'я') ∨ ('А' ≤ c ∧ c ≤ 'Я') ∨ c = 'ё' ∨ c = 'Ё' ∨
    c = '-' ∨ c = '_' ∨ c = ' ')

/-- Replace every maximal run of characters satisfying p by the single
character r: the effect of re.sub over a one-character-class plus. -/
def subRun (p : Char → Bool) (r : Char) : List Char → List Char
  | [] => []
  | c :: rest =>
    if p c then
      match rest with
      | c2 :: _ => if p c2 then subRun p r rest else r :: subRun p r rest
      | [] => [r]
    else c :: subRun p r rest

/-- export_confluence.slugify: strip, lowercase, keep the allow-list,
collapse whitespace runs to "-", collapse "-" runs, fall back to "page".
(Char.toLower lowercases the ASCII range; the titles in scope carry
lowercase Cyrillic already.) -/
def slugify (text : String) : String :=
  let t1 := (pyStrip text.toList).map Char.toLower
  let t2 := t1.filter slugAllowed
  let t3 := subRun pyIsSpace '-' t2
  let t4 := subRun (fun c => c == '-') '-' t3
  if t4.isEmpty then "page" else String.mk t4

/-- The directory name assign_paths gives a node:
`f"{slugify(node.title)}__{node.page_id}"`. -/
def safeName (title page_id : String) : String :=
  slugify title ++ "__" ++ page_id

/-- export_confluence.PageNode. -/
inductive PageNode : Type where
  | mk (page_id : String) (title : String) (children : List PageNode)
      (path : Option FsPath)

/-- Field page_id of PageNode. -/
def PageNode.page_id : PageNode → String
  | .mk i _ _ _ => i

/-- Field title of PageNode. -/
def PageNode.title : PageNode → String
  | .mk _ t _ _ => t

/-- Field children of PageNode. -/
def PageNode.children : PageNode → List PageNode
  | .mk _ _ c _ => c

/-- Field path of PageNode. -/
def PageNode.path : PageNode → Option FsPath
  | .mk _ _ _ p => p

mutual

/-- export_confluence.assign_paths: pre-order, mutating `path`; modelled
as returning the tree with every `path` set. -/
def assign_paths : PageNode → FsPath → String → PageNode
  | .mk pid title children _, parent_dir, index_name =>
    let node_dir := parent_dir ++ [safeName title pid]
    .mk pid title (assign_paths_list children node_dir index_name)
      (some (node_dir ++ [index_name]))

/-- assign_paths over a children list (the source's recursion). -/
def assign_paths_list : List PageNode → FsPath → String → List PageNode
  | [], _, _ => []
  | c :: cs, d, i => assign_paths c d i :: assign_paths_list cs d i

end

/-- assign_paths_list is the elementwise map. -/
theorem assign_paths_list_eq_map (l : List PageNode) (d : FsPath) (i : String) :
    assign_paths_list l d i = l.map (fun c => assign_paths c d i) := by
  induction l with
  | nil => rfl
  | cons c cs ih => simp [assign_paths_list, ih]

mutual

/-- export_confluence.collect_nodes: the node, then its children's
collections in order (pre-order flattening into `out`). -/
def collect_nodes : PageNode → List PageNode
  | .mk pid title children p =>
    .mk pid title children p :: collect_nodes_list children

/-- collect_nodes over a children list. -/
def collect_nodes_list : List PageNode → List PageNode
  | [] => []
  | c :: cs => collect_nodes c ++ collect_nodes_list cs

end

/-- collect_nodes_list is the flattened elementwise map. -/
theorem collect_nodes_list_eq (l : List PageNode) :
    collect_nodes_list l = (l.map collect_nodes).flatten := by
  induction l with
  | nil => rfl
  | cons c cs ih => simp [collect_nodes_list, ih]

/-- The ID→Path Index of main:
`page_id_to_md = dict over collect_nodes of page_id to path, skipping
pathless nodes`; a later binding overwrites an earlier one, as in a dict
comprehension. -/
def indexStep (acc : String → Option FsPath) (n : PageNode) : String → Option FsPath :=
  match n.path with
  | some p => fun k => if k = n.page_id then some p else acc k
  | none => acc

/-- See indexStep: the dict comprehension as a fold. -/
def buildIndex (nodes : List PageNode) : String → Option FsPath :=
  nodes.foldl indexStep (fun _ => none)

namespace ExportHtmlToMd

/-- re.match(r"^(https?://|mailto:|#)", url) as a Bool. -/
def isExternalStart (url : String) : Bool :=
  startsWithL url "http://" || startsWithL url "https://" ||
    startsWithL url "mailto:" || startsWithL url "#"

/-- Split at the first "#", keeping the tail. -/
def splitAtHash : List Char → List Char × Option (List Char)
  | [] => ([], none)
  | '#' :: rest => ([], some rest)
  | c :: rest =>
    let p := splitAtHash rest
    (c :: p.1, p.2)

/-- normalize_href of export_html_to_md.rewrite_links: split at the first
"#"; the fragment keeps its leading "#". -/
def normalize_href (href : String) : String × Option String :=
  let p := splitAtHash href.toList
  (String.mk p.1, p.2.map (fun f => String.mk ('#' :: f)))

/-- The parts of urllib.parse.urlparse that rewrite_links reads. -/
structure UrlParts : Type where
  scheme : String
  netloc : String
  path : String
  params : String
  query : String
deriving DecidableEq

/-- The characters urlsplit allows in a scheme. -/
def schemeChar (c : Char) : Bool :=
  c.isAlphanum || c == '+' || c == '-' || c == '.'

/-- urlsplit's scheme detection: text before the first ":" that starts
with a letter and is all scheme characters, lowercased. -/
def splitScheme (l : List Char) : List Char × List Char :=
  match l.findIdx? (fun c => c == ':') with
  | some i =>
    if i != 0 && (match l.head? with | some c => c.isAlpha | none => false)
        && (l.take i).all schemeChar then
      ((l.take i).map Char.toLower, l.drop (i + 1))
    else ([], l)
  | none => ([], l)

/-- urlsplit's netloc: after a leading "//", up to the next "/", "?" or
"#". -/
def splitNetloc (l : List Char) : List Char × List Char :=
  match l with
  | '/' :: '/' :: rest =>
    let n := rest.takeWhile (fun c => c != '/' && c != '?' && c != '#')
    (n, rest.drop n.length)
  | _ => ([], l)

/-- urlsplit's query: everything after the first "?". -/
def splitQuery (l : List Char) : List Char × List Char :=
  match l.findIdx? (fun c => c == '?') with
  | some i => (l.take i, l.drop (i + 1))
  | none => (l, [])

/-- The index of the last occurrence of c (str.rfind). -/
def rfindIdx (c : Char) (l : List Char) : Option Nat :=
  match l.reverse.findIdx? (fun x => x == c) with
  | some j => some (l.length - 1 - j)
  | none => none

/-- The index of the first occurrence of c at or after start
(str.find(c, start)). -/
def findIdxFrom (c : Char) (start : Nat) (l : List Char) : Option Nat :=
  match (l.drop start).findIdx? (fun x => x == c) with
  | some j => some (start + j)
  | none => none

/-- urllib's _splitparams, called when the path contains ";": split at the
first ";" after the last "/" (or the first ";" when there is no "/"). -/
def splitParams (l : List Char) : List Char × List Char :=
  match rfindIdx '/' l with
  | some s =>
    match findIdxFrom ';' s l with
    | some i => (l.take i, l.drop (i + 1))
    | none => (l, [])
  | none =>
    match l.findIdx? (fun x => x == ';') with
    | some i => (l.take i, l.drop (i + 1))
    | none => (l, [])

/-- urllib.parse.urlparse on a fragment-free URL: scheme, then "//"
netloc, then query after the first "?", then params split off the path. -/
def urlparseNF (s : String) : UrlParts :=
  let p1 := splitScheme s.toList
  let p2 := splitNetloc p1.2
  let p3 := splitQuery p2.2
  let p4 := if p3.1.contains ';' then splitParams p3.1 else (p3.1, [])
  ⟨String.mk p1.1, String.mk p2.1, String.mk p4.1, String.mk p4.2, String.mk p3.2⟩

/-- A hexadecimal digit's value. -/
def hexVal (c : Char) : Option Nat :=
  if c.isDigit then some (c.toNat - 48)
  else if 'a' ≤ c ∧ c ≤ 'f' then some (c.toNat - 87)
  else if 'A' ≤ c ∧ c ≤ 'F' then some (c.toNat - 70)
  else none

/-- urllib.parse.unquote, modelled for ASCII percent-escapes (multi-byte
UTF-8 escapes do not occur in the inputs considered); an invalid escape
passes through literally, as in CPython. -/
def unquoteL : List Char → List Char
  | '%' :: a :: b :: rest =>
    (match hexVal a, hexVal b with
     | some x, some y => Char.ofNat (16 * x + y) :: unquoteL rest
     | _, _ => '%' :: unquoteL (a :: b :: rest))
  | c :: rest => c :: unquoteL rest
  | [] => []

/-- unquote_plus: "+" to space, then unquote. -/
def unquotePlus (l : List Char) : List Char :=
  unquoteL (l.map (fun c => if c == '+' then ' ' else c))

/-- urllib.parse.parse_qsl with the defaults: split on "&", skip empty
chunks, skip chunks without "=" and chunks with an empty value, and
unquote_plus names and values. -/
def parseQsl (q : List Char) : List (String × String) :=
  (splitOnChar '&' q).filterMap (fun part =>
    if part.isEmpty then none
    else
      match part.findIdx? (fun c => c == '=') with
      | none => none
      | some i =>
        let v := part.drop (i + 1)
        if v.isEmpty then none
        else some (String.mk (unquotePlus (part.take i)),
                   String.mk (unquotePlus v)))

/-- parse_qs(query).get("pageId", [None])[0]: the first pageId value. -/
def qsPageId (q : String) : Option String :=
  ((parseQsl q.toList).find? (fun kv => kv.1 == "pageId")).map (fun kv => kv.2)

/-- PurePath.relative_to: the remainder when base is a leading segment
prefix of p; ValueError (none) otherwise. -/
def relativeTo (p base : FsPath) : Option FsPath :=
  if base.isPrefixOf p then some (p.drop base.length) else none

/-- as_posix() of the relative path relative_to returns ("." when they
coincide). -/
def asPosixRel (p : FsPath) : String :=
  if p.isEmpty then "." else renderPath p

/-- `(current_html.parent / unquote(parsed.path)).resolve()`: pathlib join
then lexical normalisation. -/
def joinResolve (base : FsPath) (p : String) : FsPath :=
  resolveNorm (pyJoin base p)

/-- One href/src attribute value through the tag loop of
export_html_to_md.rewrite_links, in the source's branch order: absolute
prefixes pass; a pageId query parameter known to the page-id map wins; a
remaining scheme or netloc passes; otherwise the target is resolved
against the input tree and mapped through html_map, falling back to a
relative path to the (source-side) location of the file. -/
def rewriteUrl (html_map page_id_map : String → Option FsPath)
    (current_html current_md : FsPath) (input_dir : FsPath) (url : String) : String :=
  if isExternalStart url then url
  else
    let bf := normalize_href url
    let frag := bf.2.getD ""
    let parsed := urlparseNF bf.1
    let viaId : Option FsPath :=
      if parsed.query = "" then none
      else
        match qsPageId parsed.query with
        | some pid => page_id_map pid
        | none => none
    match viaId with
    | some md_path => replace_to_relative current_md.dropLast md_path ++ frag
    | none =>
      if parsed.scheme != "" || parsed.netloc != "" then url
      else
        let base_path := joinResolve current_html.dropLast
          (String.mk (unquoteL parsed.path.toList))
        match relativeTo base_path input_dir with
        | none => url
        | some relSegs =>
          match html_map (asPosixRel relSegs) with
          | some md_path => replace_to_relative current_md.dropLast md_path ++ frag
          | none => replace_to_relative current_md.dropLast base_path ++ frag

/-- export_html_to_md.rewrite_links over a markup (its href/src attribute
values): missing and empty attributes are skipped, every other one goes
through rewriteUrl. -/
def rewrite_links (html_map page_id_map : String → Option FsPath)
    (current_html current_md : FsPath) (input_dir : FsPath)
    (markup : List (Option String)) : List (Option String) :=
  markup.map (fun attrVal =>
    match attrVal with
    | none => none
    | some url =>
      if url = "" then some url
      else some (rewriteUrl html_map page_id_map current_html current_md input_dir url))

end ExportHtmlToMd

mutual

/-- Structural equality test for PageNode. -/
def PageNode.beq : PageNode → PageNode → Bool
  | .mk i1 t1 c1 p1, .mk i2 t2 c2 p2 =>
    i1 == i2 && t1 == t2 && p1 == p2 && PageNode.beqList c1 c2

/-- Structural equality test for lists of PageNode. -/
def PageNode.beqList : List PageNode → List PageNode → Bool
  | [], [] => true
  | x :: xs, y :: ys => PageNode.beq x y && PageNode.beqList xs ys
  | _, _ => false

end

mutual

theorem PageNode.beq_iff : ∀ a b : PageNode, PageNode.beq a b = true ↔ a = b
  | .mk i1 t1 c1 p1, .mk i2 t2 c2 p2 => by
    simp only [PageNode.beq, Bool.and_eq_true, beq_iff_eq, PageNode.mk.injEq]
    constructor
    · rintro ⟨⟨⟨h1, h2⟩, h4⟩, h3⟩
      exact ⟨h1, h2, (PageNode.beqList_iff c1 c2).1 h3, h4⟩
    · rintro ⟨h1, h2, h3, h4⟩
      exact ⟨⟨⟨h1, h2⟩, h4⟩, (PageNode.beqList_iff c1 c2).2 h3⟩

theorem PageNode.beqList_iff : ∀ l1 l2 : List PageNode,
    PageNode.beqList l1 l2 = true ↔ l1 = l2
  | [], [] => by simp [PageNode.beqList]
  | [], _ :: _ => by simp [PageNode.beqList]
  | _ :: _, [] => by simp [PageNode.beqList]
  | x :: xs, y :: ys => by
    simp only [PageNode.beqList, Bool.and_eq_true, List.cons.injEq]
    rw [PageNode.beq_iff x y, PageNode.beqList_iff xs ys]

end

instance : DecidableEq PageNode :=
  fun a b => decidable_of_iff _ (PageNode.beq_iff a b)

/-- The output filesystem: file contents by path. -/
def FS : Type := FsPath → Option String

/-- A file write. -/
def updFS (fs : FS) (k : FsPath) (v : String) : FS :=
  fun x => if x = k then some v else fs x

namespace ExportConfluence

/-- One entry of a get_page_attachments result page: att.get("title") (an
empty string is falsy and falls back) and
att.get("_links", ...).get("download") (absent or empty is skipped). -/
structure Attachment : Type where
  title : String
  download : Option String

/-- Path(download).name: the last segment of the path (pathlib drops a
trailing slash and empty segments at construction). -/
def pathName (s : String) : String :=
  match (fnSegs s).getLast? with
  | some n => n
  | none => ""

/-- The filename download_attachments chooses:
`att.get("title") or Path(download).name`. -/
def attFilename (a : Attachment) (download : String) : String :=
  if a.title = "" then pathName download else a.title

/-- The per-attachment body of download_attachments: a missing or empty
download link is skipped; an existing target is skipped with no fetch;
otherwise base_url ++ download is fetched (streamed) and written to
attachment_dir / filename. The state carries the filesystem and the list
of URLs fetched so far. -/
def downloadStep (fetchContent : String → String) (base_url : String)
    (attachment_dir : FsPath) (st : FS × List String) (a : Attachment) :
    FS × List String :=
  match a.download with
  | none => st
  | some d =>
    if d = "" then st
    else
      let target := pyJoin attachment_dir (attFilename a d)
      match st.1 target with
      | some _ => st
      | none =>
        (updFS st.1 target (fetchContent (base_url ++ d)), st.2 ++ [base_url ++ d])

/-- export_confluence.download_attachments over one attachment listing
(the pagination across result pages, modelled by `paginate`, concatenates
the pages; the per-attachment behaviour is this fold). Returns the
filesystem and the URLs fetched. -/
def download_attachments (fetchContent : String → String) (base_url : String)
    (atts : List Attachment) (attachment_dir : FsPath) (fs : FS) : FS × List String :=
  atts.foldl (downloadStep fetchContent base_url attachment_dir) (fs, [])

/-- What export_page reads from the Confluence API and the download
session, fixed for a run: body.view.value (absent or empty falls back),
body.storage.value, the attachment listing per page id, and the bytes a
download URL streams. -/
structure Responses : Type where
  bodyView : String → Option String
  bodyStorage : String → String
  base_url : String
  attachments : String → List Attachment
  fetchContent : String → String

/-- The body html export_page starts from: body.view.value, falling back
to body.storage.value when the primary is absent or empty
(`if not html`). -/
def pageHtml (r : Responses) (pid : String) : String :=
  match r.bodyView pid with
  | some s => if s = "" then r.bodyStorage pid else s
  | none => r.bodyStorage pid

/-- One "- [title](rel)" line of the children index; main's page_id_to_md
contains every child of an exported node (the source indexes the dict
directly and would raise otherwise, so the none branch is unreachable in
a run). -/
def childLine (page_id_to_md : String → Option FsPath) (page_dir : FsPath)
    (c : PageNode) : String :=
  match page_id_to_md c.page_id with
  | some child_md =>
    "- [" ++ c.title ++ "](" ++ replace_to_relative page_dir child_md ++ ")"
  | none => ""

/-- The children.md content: "# Подстраницы", a line per child, a
trailing newline, joined with newlines. -/
def childrenIndex (page_id_to_md : String → Option FsPath) (page_dir : FsPath)
    (children : List PageNode) : String :=
  String.intercalate "\n"
    (("# Подстраницы\n" :: children.map (childLine page_id_to_md page_dir)) ++ [""])

/-- export_confluence.export_page: fetch the body, ensure and fill the
attachments directory (skip existing files), rewrite the body's link
attributes against the read-only index, convert (html2text and the
str.strip are the opaque converter `conv`, the soup attribute extraction
the opaque `attrsOf`), write "# title" and the document to node.path, and
write a children.md index when the node has children. A pathless node
does not occur (the source asserts node.path; main assigns paths first). -/
def export_page (r : Responses) (attrsOf : String → List (Option String))
    (conv : List (Option String) → String) (page_id_to_md : String → Option FsPath)
    (node : PageNode) (fs : FS) : FS :=
  match node.path with
  | none => fs
  | some p =>
    let page_dir := p.dropLast
    let attachment_dir := page_dir ++ ["attachments"]
    let fs1 :=
      (download_attachments r.fetchContent r.base_url (r.attachments node.page_id)
        attachment_dir fs).1
    let rewritten := rewrite_links page_id_to_md p attachment_dir
      (attrsOf (pageHtml r node.page_id))
    let fs2 := updFS fs1 p ("# " ++ node.title ++ "\n\n" ++ conv rewritten)
    if node.children.isEmpty then fs2
    else updFS fs2 (page_dir ++ ["children.md"])
      (childrenIndex page_id_to_md page_dir node.children)

/-- The export loop of main: export each collected node in list order. -/
def export_all (r : Responses) (attrsOf : String → List (Option String))
    (conv : List (Option String) → String) (page_id_to_md : String → Option FsPath)
    (nodes : List PageNode) (fs : FS) : FS :=
  nodes.foldl (fun acc n => export_page r attrsOf conv page_id_to_md n acc) fs

/-- The attachment target paths of a listing: one per attachment with a
nonempty download link. -/
def attTargetsL (attachment_dir : FsPath) (atts : List Attachment) : List FsPath :=
  atts.filterMap (fun a =>
    match a.download with
    | none => none
    | some d => if d = "" then none else some (pyJoin attachment_dir (attFilename a d)))

/-- The attachment target paths of a page. -/
def attachmentTargets (r : Responses) (attachment_dir : FsPath) (pid : String) :
    List FsPath :=
  attTargetsL attachment_dir (r.attachments pid)

/-- The output paths export_page touches for a node (reads for
skip-if-exists, writes): its attachment targets, its content file, and
its children index when it has children. -/
def footprint (r : Responses) (node : PageNode) : List FsPath :=
  match node.path with
  | none => []
  | some p =>
    attachmentTargets r (p.dropLast ++ ["attachments"]) node.page_id
      ++ [p]
      ++ (if node.children.isEmpty then [] else [p.dropLast ++ ["children.md"]])

/-- The pagination loop shared by build_tree (page size 50) and
download_attachments (page size 100): fetch at `start`, stop on a page
shorter than `limit`, else append and advance `start` by `limit`. `fuel`
bounds the number of requests the model may make, `none` meaning the loop
is still running; the result also counts the requests made. -/
def paginate {α : Type} (fetch : Nat → List α) (limit : Nat) :
    Nat → Nat → Option (List α × Nat)
  | 0, _ => none
  | fuel + 1, start =>
    let results := fetch start
    if results.length < limit then some (results, 1)
    else
      match paginate fetch limit fuel (start + limit) with
      | none => none
      | some (rest, k) => some (results ++ rest, k + 1)

end ExportConfluence

namespace ExportHtmlToMd

/-- PurePath.suffix: from the last "." of the name, when that dot is
neither the first nor the last character. -/
def pySuffix (name : String) : String :=
  match rfindIdx '.' name.toList with
  | some i =>
    if i != 0 && i + 1 != name.toList.length then String.mk (name.toList.drop i)
    else ""
  | none => ""

/-- Path.with_suffix(".md"): strip the current suffix if any, append
".md", on the last segment. -/
def withSuffixMd (p : FsPath) : FsPath :=
  match p.getLast? with
  | none => p
  | some name =>
    let suf := pySuffix name
    let newName :=
      (if suf = "" then name
       else String.mk (name.toList.take (name.toList.length - suf.toList.length)))
        ++ ".md"
    p.dropLast ++ [newName]

/-- export_html_to_md.build_html_map: the rglob("*.html") files, then the
rglob("*.htm") files (each given relative to input_dir, as the source's
relative_to(input_dir).as_posix() computes); the target is
output_dir / rel with the suffix replaced by ".md". The dict is modelled
by an insertion-ordered association list. -/
def build_html_map (htmlFiles htmFiles : List String) (output_dir : FsPath) :
    List (String × FsPath) :=
  (htmlFiles ++ htmFiles).map (fun rel =>
    (rel, withSuffixMd (output_dir ++ fnSegs rel)))

/-- The conversion loop of export_html_to_md.main: every html_map entry
is converted (convFile stands for read_text, get_main_content,
rewrite_links and the converter on that source file) and written to its
target, iterating the dict in insertion order. -/
def convert_all (convFile : String → String) (html_map : List (String × FsPath))
    (fs : FS) : FS :=
  html_map.foldl (fun acc e => updFS acc e.2 (convFile e.1)) fs

end ExportHtmlToMd

/-! ## Supporting lemmas -/

/-- The API rewriter on a url whose leftmost pageId capture is known to
the index: the attribute becomes exactly the relative path. -/
theorem api_rewrite_pageId (idx : String → Option FsPath) (cur attDir : FsPath)
    (u : String) (ds : List Char) (target : FsPath)
    (h1 : searchPageId u.toList = some ds) (h2 : idx (String.mk ds) = some target) :
    ExportConfluence.rewriteUrl idx cur attDir u = replace_to_relative cur target := by
  simp only [ExportConfluence.rewriteUrl, h1, h2]

/-- The API rewriter leaves a url with no recognized pattern alone. -/
theorem api_rewrite_untouched (idx : String → Option FsPath) (cur attDir : FsPath)
    (u : String) (h1 : searchPageId u.toList = none) (h2 : searchAttach u.toList = none) :
    ExportConfluence.rewriteUrl idx cur attDir u = u := by
  simp only [ExportConfluence.rewriteUrl, h1, h2]

/-- The HTML-export rewriter on a non-absolute url whose query's pageId is
known to the page-id map: relative path plus the fragment, verbatim. -/
theorem html_rewrite_pageId (hm pm : String → Option FsPath)
    (ch cm idir : FsPath) (u base frag pid : String) (target : FsPath)
    (hext : ExportHtmlToMd.isExternalStart u = false)
    (hsplit : ExportHtmlToMd.normalize_href u = (base, some frag))
    (hq : (ExportHtmlToMd.urlparseNF base).query ≠ "")
    (hpid : ExportHtmlToMd.qsPageId (ExportHtmlToMd.urlparseNF base).query = some pid)
    (hmap : pm pid = some target) :
    ExportHtmlToMd.rewriteUrl hm pm ch cm idir u
      = replace_to_relative cm.dropLast target ++ frag := by
  unfold ExportHtmlToMd.rewriteUrl
  rw [hext]
  simp only [Bool.false_eq_true, if_false, hsplit, if_neg hq, hpid, hmap,
    Option.getD_some]

/-- takeWhile over a block that satisfies the predicate followed by a
stopper returns exactly the block. -/
theorem takeWhile_append_stop {p : Char → Bool} (l r : List Char) (x : Char)
    (hl : ∀ c ∈ l, p c = true) (hx : p x = false) :
    (l ++ x :: r).takeWhile p = l := by
  induction l with
  | nil => simp [List.takeWhile_cons, hx]
  | cons a as ih =>
    have ha := hl a (List.mem_cons_self a as)
    simp [List.takeWhile_cons, ha,
      ih (fun c hc => hl c (List.mem_cons_of_mem _ hc))]

/-- The id can be read back off a safe directory name as the maximal
underscore-free suffix. -/
def extractId (l : List Char) : List Char :=
  (l.reverse.takeWhile (fun c => c != '_')).reverse

theorem extractId_safe (s i : List Char) (hi : '_' ∉ i) :
    extractId (s ++ '_' :: '_' :: i) = i := by
  unfold extractId
  have hrev : (s ++ '_' :: '_' :: i).reverse = i.reverse ++ '_' :: '_' :: s.reverse := by
    simp
  rw [hrev, takeWhile_append_stop]
  · simp
  · intro c hc
    have hci : c ∈ i := List.mem_reverse.1 hc
    have : c ≠ '_' := fun h => hi (h ▸ hci)
    simpa using this
  · simp

/-- The characters of a safe directory name. -/
theorem safeName_data (t i : String) :
    (safeName t i).data = (slugify t).data ++ '_' :: '_' :: i.data := by
  simp [safeName]

/-- Distinct underscore-free ids give distinct safe names, whatever the
titles. -/
theorem safeName_inj_id (t1 t2 i1 i2 : String)
    (h1 : '_' ∉ i1.data) (h2 : '_' ∉ i2.data)
    (heq : safeName t1 i1 = safeName t2 i2) : i1 = i2 := by
  have hd := congrArg String.data heq
  rw [safeName_data, safeName_data] at hd
  have hi := congrArg extractId hd
  rw [extractId_safe _ _ h1, extractId_safe _ _ h2] at hi
  exact String.ext hi

/-- The path assign_paths gives the node itself. -/
theorem assign_paths_path (n : PageNode) (d : FsPath) (i : String) :
    (assign_paths n d i).path = some (d ++ [safeName n.title n.page_id, i]) := by
  match n with
  | .mk pid title children p0 =>
    simp [assign_paths, PageNode.path, PageNode.title, PageNode.page_id]

/-! ## Claims C1, C2, C3: the Link Rewriter on internal references -/

/-- C1, counterexample: the API-mode rewriter drops the "#sec" fragment of
an internal page reference instead of appending it verbatim. -/
theorem c1_api_drops_fragment :
    ExportConfluence.rewriteUrl
      (fun k => if k = "123" then some ["root", "x__123", "index.md"] else none)
      ["root", "a__1"] ["root", "a__1", "attachments"]
      "/pages/viewpage.action?pageId=123#sec"
      = "../x__123/index.md"
    ∧ ("../x__123/index.md" : String) ≠ "../x__123/index.md#sec" :=
  ⟨by decide, by decide⟩

/-- C1 (amended): an internal pageId reference whose id is in the index is
rewritten to the path relative to the current page's output directory; the
HTML-export-mode rewriter appends the fragment suffix verbatim, while the
API-mode rewriter replaces the whole attribute with the bare relative
path, dropping any fragment. -/
theorem c1_fragment_handling (hm pm : String → Option FsPath)
    (ch cm idir : FsPath) (u base frag pid : String) (target : FsPath)
    (hext : ExportHtmlToMd.isExternalStart u = false)
    (hsplit : ExportHtmlToMd.normalize_href u = (base, some frag))
    (hq : (ExportHtmlToMd.urlparseNF base).query ≠ "")
    (hpid : ExportHtmlToMd.qsPageId (ExportHtmlToMd.urlparseNF base).query = some pid)
    (hmap : pm pid = some target) :
    ExportHtmlToMd.rewriteUrl hm pm ch cm idir u
      = replace_to_relative cm.dropLast target ++ frag
    ∧ ∀ (idx : String → Option FsPath) (cur attDir : FsPath) (v : String)
        (ds : List Char) (t2 : FsPath),
        searchPageId v.toList = some ds → idx (String.mk ds) = some t2 →
        ExportConfluence.rewriteUrl idx cur attDir v = replace_to_relative cur t2 := by
  refine ⟨html_rewrite_pageId hm pm ch cm idir u base frag pid target
    hext hsplit hq hpid hmap, ?_⟩
  intro idx cur attDir v ds t2 hv hidx
  exact api_rewrite_pageId idx cur attDir v ds t2 hv hidx

/-- C1, witness: the HTML-export rewriter keeps "#frag". -/
theorem c1_fragment_handling_witness :
    ExportHtmlToMd.rewriteUrl (fun _ => none)
      (fun k => if k = "9" then some ["out", "t", "index.md"] else none)
      ["in", "c", "f.html"] ["out", "c", "f.md"] ["in"] "p.html?pageId=9#frag"
      = replace_to_relative (["out", "c", "f.md"] : FsPath).dropLast
          ["out", "t", "index.md"] ++ "#frag"
    ∧ ∀ (idx : String → Option FsPath) (cur attDir : FsPath) (v : String)
        (ds : List Char) (t2 : FsPath),
        searchPageId v.toList = some ds → idx (String.mk ds) = some t2 →
        ExportConfluence.rewriteUrl idx cur attDir v = replace_to_relative cur t2 :=
  c1_fragment_handling (fun _ => none)
    (fun k => if k = "9" then some ["out", "t", "index.md"] else none)
    ["in", "c", "f.html"] ["out", "c", "f.md"] ["in"] "p.html?pageId=9#frag"
    "p.html?pageId=9" "#frag" "9" ["out", "t", "index.md"]
    (by decide) (by decide) (by decide) (by decide) rfl

/-- C2, counterexample: an already-absolute URL that carries a pageId
query parameter is rewritten by the API-mode rewriter, not left
untouched. -/
theorem c2_api_rewrites_absolute :
    ExportConfluence.rewriteUrl
      (fun k => if k = "1" then some ["root", "x__1", "index.md"] else none)
      ["root", "a__2"] ["root", "a__2", "attachments"]
      "https://example.com/pages/viewpage.action?pageId=1"
      = "../x__1/index.md"
    ∧ ("../x__1/index.md" : String)
        ≠ "https://example.com/pages/viewpage.action?pageId=1" :=
  ⟨by decide, by decide⟩

/-- C2 (amended): the HTML-export-mode rewriter leaves any url starting
with http://, https://, mailto: or "#" untouched, whatever else it
contains; the API-mode rewriter leaves a url untouched only when it
matches neither the pageId nor the download-attachments pattern (an
absolute URL containing either pattern is rewritten there). -/
theorem c2_passthrough (hm pm : String → Option FsPath) (ch cm idir : FsPath)
    (u : String) (hext : ExportHtmlToMd.isExternalStart u = true) :
    ExportHtmlToMd.rewriteUrl hm pm ch cm idir u = u
    ∧ ∀ (idx : String → Option FsPath) (cur attDir : FsPath) (v : String),
        searchPageId v.toList = none → searchAttach v.toList = none →
        ExportConfluence.rewriteUrl idx cur attDir v = v := by
  constructor
  · unfold ExportHtmlToMd.rewriteUrl
    rw [hext]
    simp
  · intro idx cur attDir v h1 h2
    exact api_rewrite_untouched idx cur attDir v h1 h2

/-- C2, witness: https://example.com/x passes through both rewriters. -/
theorem c2_passthrough_witness :
    ExportHtmlToMd.rewriteUrl (fun _ => none) (fun _ => none)
      ["in", "f.html"] ["out", "f.md"] ["in"] "https://example.com/x"
      = "https://example.com/x"
    ∧ ∀ (idx : String → Option FsPath) (cur attDir : FsPath) (v : String),
        searchPageId v.toList = none → searchAttach v.toList = none →
        ExportConfluence.rewriteUrl idx cur attDir v = v :=
  c2_passthrough (fun _ => none) (fun _ => none)
    ["in", "f.html"] ["out", "f.md"] ["in"] "https://example.com/x" (by decide)

/-- C3, counterexample: for page A at root/a__1/index.md linking to page B
at root/x/b__2/index.md the rewritten attribute is "../x/b__2/index.md",
not the claimed "x/b__2/index.md". -/
theorem c3_relpath_example :
    ExportConfluence.rewriteUrl
      (fun k => if k = "2" then some ["root", "x", "b__2", "index.md"] else none)
      ["root", "a__1"] ["root", "a__1", "attachments"] "?pageId=2"
      = "../x/b__2/index.md"
    ∧ ("../x/b__2/index.md" : String) ≠ "x/b__2/index.md" :=
  ⟨by decide, by decide⟩

/-- C3 (amended): the rewritten attribute is os.path.relpath from the
directory of the current output file to the target, rendered with forward
slashes; for A at root/a__1/index.md and B at root/x/b__2/index.md that
relative path is "../x/b__2/index.md". -/
theorem c3_relative_path (idx : String → Option FsPath) (cur_md attDir : FsPath)
    (u : String) (ds : List Char) (target : FsPath)
    (h1 : searchPageId u.toList = some ds) (h2 : idx (String.mk ds) = some target) :
    ExportConfluence.rewriteUrl idx cur_md.dropLast attDir u
      = renderPath (relpathSegs (resolveNorm target) (resolveNorm cur_md.dropLast))
    ∧ replace_to_relative (["root", "a__1", "index.md"] : FsPath).dropLast
        ["root", "x", "b__2", "index.md"] = "../x/b__2/index.md" :=
  ⟨api_rewrite_pageId idx cur_md.dropLast attDir u ds target h1 h2, by decide⟩

/-- C3, witness. -/
theorem c3_relative_path_witness :
    ExportConfluence.rewriteUrl
      (fun k => if k = "2" then some ["root", "x", "b__2", "index.md"] else none)
      (["root", "a__1", "index.md"] : FsPath).dropLast
      ["root", "a__1", "attachments"] "?pageId=2"
      = renderPath (relpathSegs (resolveNorm ["root", "x", "b__2", "index.md"])
          (resolveNorm (["root", "a__1", "index.md"] : FsPath).dropLast))
    ∧ replace_to_relative (["root", "a__1", "index.md"] : FsPath).dropLast
        ["root", "x", "b__2", "index.md"] = "../x/b__2/index.md" :=
  c3_relative_path
    (fun k => if k = "2" then some ["root", "x", "b__2", "index.md"] else none)
    ["root", "a__1", "index.md"] ["root", "a__1", "attachments"] "?pageId=2"
    ['2'] ["root", "x", "b__2", "index.md"] (by decide) (by decide)

/-! ## Claim C4: idempotence of the rewrite -/

/-- A string in which the API rewriter recognises no pattern: such an
attribute passes through unchanged. -/
def patternFree (s : String) : Prop :=
  searchPageId s.toList = none ∧ searchAttach s.toList = none

/-- One attribute value through the API rewriter twice: idempotent
provided the relative paths the rewriter can produce show no recognisable
pattern themselves. -/
theorem rewriteUrl_api_idem (idx : String → Option FsPath) (cur attDir : FsPath)
    (u : String)
    (hidx : ∀ pid target, idx pid = some target →
      patternFree (replace_to_relative cur target))
    (hatt : ∀ pid fn, searchAttach u.toList = some (pid, fn) →
      patternFree (replace_to_relative cur (pyJoin attDir (String.mk fn)))) :
    ExportConfluence.rewriteUrl idx cur attDir (ExportConfluence.rewriteUrl idx cur attDir u)
      = ExportConfluence.rewriteUrl idx cur attDir u := by
  rcases h1 : searchPageId u.toList with _ | ds
  · rcases h2 : searchAttach u.toList with _ | ⟨pid, fn⟩
    · rw [api_rewrite_untouched idx cur attDir u h1 h2,
        api_rewrite_untouched idx cur attDir u h1 h2]
    · have hout : ExportConfluence.rewriteUrl idx cur attDir u
          = replace_to_relative cur (pyJoin attDir (String.mk fn)) := by
        simp only [ExportConfluence.rewriteUrl, h1, h2]
      have hp := hatt pid fn h2
      rw [hout, api_rewrite_untouched idx cur attDir _ hp.1 hp.2]
  · rcases h2 : idx (String.mk ds) with _ | target
    · have hout : ExportConfluence.rewriteUrl idx cur attDir u = u := by
        simp only [ExportConfluence.rewriteUrl, h1, h2]
      rw [hout]
      exact hout
    · have hout := api_rewrite_pageId idx cur attDir u ds target h1 h2
      have hp := hidx (String.mk ds) target h2
      rw [hout, api_rewrite_untouched idx cur attDir _ hp.1 hp.2]

/-- C4, counterexample: the HTML-export-mode rewriter is not idempotent: a
link to a converted page is first rewritten to its .md target, and a
second application re-resolves that against the input directory and
rewrites it again. -/
theorem c4_html_not_idempotent :
    ExportHtmlToMd.rewrite_links
        (fun k => if k = "b.html" then some ["out", "b.md"]
          else if k = "f.html" then some ["out", "f.md"] else none)
        (fun _ => none) ["in", "f.html"] ["out", "f.md"] ["in"]
        (ExportHtmlToMd.rewrite_links
          (fun k => if k = "b.html" then some ["out", "b.md"]
            else if k = "f.html" then some ["out", "f.md"] else none)
          (fun _ => none) ["in", "f.html"] ["out", "f.md"] ["in"] [some "b.html"])
      ≠ ExportHtmlToMd.rewrite_links
          (fun k => if k = "b.html" then some ["out", "b.md"]
            else if k = "f.html" then some ["out", "f.md"] else none)
          (fun _ => none) ["in", "f.html"] ["out", "f.md"] ["in"] [some "b.html"] := by
  decide

/-- C4 (amended): the API-mode rewriter is idempotent on a markup whenever
the relative paths it can write (for indexed pages and for the markup's
attachment references) contain no recognisable pageId or
download-attachments pattern, as is the case for the paths assign_paths
produces; the HTML-export-mode rewriter is not idempotent in general. -/
theorem c4_idempotent_api (idx : String → Option FsPath) (cur_md attDir : FsPath)
    (markup : List (Option String))
    (hidx : ∀ pid target, idx pid = some target →
      patternFree (replace_to_relative cur_md.dropLast target))
    (hatt : ∀ u : String, some u ∈ markup → ∀ pid fn,
      searchAttach u.toList = some (pid, fn) →
      patternFree (replace_to_relative cur_md.dropLast (pyJoin attDir (String.mk fn)))) :
    ExportConfluence.rewrite_links idx cur_md attDir
        (ExportConfluence.rewrite_links idx cur_md attDir markup)
      = ExportConfluence.rewrite_links idx cur_md attDir markup := by
  unfold ExportConfluence.rewrite_links
  rw [List.map_map]
  apply List.map_congr_left
  intro a ha
  rcases a with _ | u
  · rfl
  · by_cases hu : u = ""
    · subst hu
      simp
    · simp only [Function.comp_apply, if_neg hu]
      set v := ExportConfluence.rewriteUrl idx cur_md.dropLast attDir u with hv
      by_cases hv0 : v = ""
      · simp [hv0]
      · simp only [if_neg hv0]
        congr 1
        exact rewriteUrl_api_idem idx cur_md.dropLast attDir u hidx
          (fun pid fn hfn => hatt u ha pid fn hfn)

/-- C4, witness: a markup with a pageId link, an attachment link, an
external link, an attributeless tag and an empty attribute, against an
index whose paths are assign_paths-shaped. -/
theorem c4_idempotent_api_witness :
    ExportConfluence.rewrite_links
        (fun k => if k = "5" then some ["root", "p__5", "index.md"] else none)
        ["root", "a__1", "index.md"] ["root", "a__1", "attachments"]
        (ExportConfluence.rewrite_links
          (fun k => if k = "5" then some ["root", "p__5", "index.md"] else none)
          ["root", "a__1", "index.md"] ["root", "a__1", "attachments"]
          [some "x?pageId=5#s", some "/download/attachments/9/f.png",
           some "https://example.com/", none, some ""])
      = ExportConfluence.rewrite_links
          (fun k => if k = "5" then some ["root", "p__5", "index.md"] else none)
          ["root", "a__1", "index.md"] ["root", "a__1", "attachments"]
          [some "x?pageId=5#s", some "/download/attachments/9/f.png",
           some "https://example.com/", none, some ""] := by
  apply c4_idempotent_api
  · intro pid target h
    by_cases hp : pid = "5"
    · subst hp
      simp at h
      subst h
      exact ⟨by decide, by decide⟩
    · simp [hp] at h
  · intro u hu pid fn h
    have hform : u = "x?pageId=5#s" ∨ u = "/download/attachments/9/f.png" ∨
        u = "https://example.com/" ∨ u = "" := by
      simpa only [List.mem_cons, List.not_mem_nil, Option.some.injEq, reduceCtorEq,
        or_false, false_or] using hu
    rcases hform with hu1 | hu1 | hu1 | hu1 <;> subst hu1
    · rw [show searchAttach ("x?pageId=5#s" : String).toList = none from by decide] at h
      cases h
    · rw [show searchAttach ("/download/attachments/9/f.png" : String).toList
          = some (['9'], "f.png".toList) from by decide] at h
      injection h with h2
      injection h2 with ha hb
      subst ha
      subst hb
      exact ⟨by decide, by decide⟩
    · rw [show searchAttach ("https://example.com/" : String).toList = none from by decide] at h
      cases h
    · rw [show searchAttach ("" : String).toList = none from by decide] at h
      cases h

/-! ## Claim C5: sibling directory names -/

/-- C5, counterexample: a tree with pairwise distinct ids in which
assign_paths gives two distinct siblings the same directory name (and so
the same path): titles "a__1"/"a" with ids "2"/"1__2" both yield the
directory name "a__1__2". -/
theorem c5_collision :
    ((assign_paths
        (.mk "0" "r" [.mk "2" "a__1" [] none, .mk "1__2" "a" [] none] none)
        [] "index.md").children.map PageNode.path)
      = [some ["r__0", "a__1__2", "index.md"], some ["r__0", "a__1__2", "index.md"]]
    ∧ ("2" : String) ≠ "1__2"
    ∧ safeName "a__1" "2" = safeName "a" "1__2" :=
  ⟨by decide, by decide, by decide⟩

/-- C5 (amended): for siblings whose ids contain no underscore (Confluence
ids are numeric), distinct ids give distinct directory names
slug(title) ++ "__" ++ id, and so distinct assigned paths, even for equal
titles. -/
theorem c5_sibling_names_distinct (parent_dir : FsPath) (index_name : String)
    (n1 n2 : PageNode)
    (h1 : '_' ∉ n1.page_id.data) (h2 : '_' ∉ n2.page_id.data)
    (hne : n1.page_id ≠ n2.page_id) :
    safeName n1.title n1.page_id ≠ safeName n2.title n2.page_id
    ∧ (assign_paths n1 parent_dir index_name).path
        ≠ (assign_paths n2 parent_dir index_name).path := by
  have hsafe : safeName n1.title n1.page_id ≠ safeName n2.title n2.page_id :=
    fun heq => hne (safeName_inj_id _ _ _ _ h1 h2 heq)
  refine ⟨hsafe, ?_⟩
  rw [assign_paths_path, assign_paths_path]
  intro heq
  have hl := Option.some.inj heq
  have hl2 := List.append_cancel_left hl
  exact hsafe (List.cons.inj hl2).1

/-- C5, witness: two siblings with the same title and ids "1" and "2". -/
theorem c5_sibling_names_distinct_witness :
    safeName (PageNode.mk "1" "a" [] none).title (PageNode.mk "1" "a" [] none).page_id
      ≠ safeName (PageNode.mk "2" "a" [] none).title (PageNode.mk "2" "a" [] none).page_id
    ∧ (assign_paths (PageNode.mk "1" "a" [] none) ["root"] "index.md").path
        ≠ (assign_paths (PageNode.mk "2" "a" [] none) ["root"] "index.md").path :=
  c5_sibling_names_distinct ["root"] "index.md"
    (PageNode.mk "1" "a" [] none) (PageNode.mk "2" "a" [] none)
    (by decide) (by decide) (by decide)

/-! ## Claim C8: pagination -/

/-- C8: the pagination loop of build_tree and download_attachments stops
after exactly two requests when the first page is exactly full and the
second short; in general it returns a short page after one request and
otherwise appends the full page, advances the offset by the page size and
goes on. -/
theorem c8_pagination_two_requests {α : Type} (fetch : Nat → List α)
    (limit fuel : Nat) (hfull : (fetch 0).length = limit)
    (hshort : (fetch limit).length < limit) (hfuel : 2 ≤ fuel) :
    ExportConfluence.paginate fetch limit fuel 0 = some (fetch 0 ++ fetch limit, 2)
    ∧ (∀ start f2, (fetch start).length < limit →
        ExportConfluence.paginate fetch limit (f2 + 1) start = some (fetch start, 1))
    ∧ (∀ start f2 rest k, ¬ (fetch start).length < limit →
        ExportConfluence.paginate fetch limit f2 (start + limit) = some (rest, k) →
        ExportConfluence.paginate fetch limit (f2 + 1) start
          = some (fetch start ++ rest, k + 1)) := by
  have hstep1 : ∀ start f2, (fetch start).length < limit →
      ExportConfluence.paginate fetch limit (f2 + 1) start = some (fetch start, 1) := by
    intro start f2 h
    simp only [ExportConfluence.paginate, if_pos h]
  have hstep2 : ∀ start f2 rest k, ¬ (fetch start).length < limit →
      ExportConfluence.paginate fetch limit f2 (start + limit) = some (rest, k) →
      ExportConfluence.paginate fetch limit (f2 + 1) start
        = some (fetch start ++ rest, k + 1) := by
    intro start f2 rest k h h2
    simp only [ExportConfluence.paginate, if_neg h, h2]
  refine ⟨?_, hstep1, hstep2⟩
  obtain ⟨f, rfl⟩ := Nat.exists_eq_add_of_le' hfuel
  have hnotlt : ¬ (fetch 0).length < limit := by omega
  have h1 : ExportConfluence.paginate fetch limit (f + 1) (0 + limit)
      = some (fetch limit, 1) := by
    have := hstep1 (0 + limit) f (by simpa using hshort)
    simpa using this
  have := hstep2 0 (f + 1) (fetch limit) 1 hnotlt h1
  simpa using this

/-- C8, witness: page size 2, first page [1, 1], second page [5]. -/
theorem c8_pagination_witness :
    ExportConfluence.paginate
        (fun s => if s = 0 then [1, 1] else if s = 2 then [5] else ([] : List Nat))
        2 2 0
      = some ([1, 1] ++ [5], 2)
    ∧ (∀ start f2,
        ((fun s => if s = 0 then [1, 1] else if s = 2 then [5] else ([] : List Nat))
            start).length < 2 →
        ExportConfluence.paginate
            (fun s => if s = 0 then [1, 1] else if s = 2 then [5] else ([] : List Nat))
            2 (f2 + 1) start
          = some ((fun s => if s = 0 then [1, 1] else if s = 2 then [5] else
              ([] : List Nat)) start, 1))
    ∧ (∀ start f2 rest k,
        ¬ ((fun s => if s = 0 then [1, 1] else if s = 2 then [5] else ([] : List Nat))
            start).length < 2 →
        ExportConfluence.paginate
            (fun s => if s = 0 then [1, 1] else if s = 2 then [5] else ([] : List Nat))
            2 f2 (start + 2) = some (rest, k) →
        ExportConfluence.paginate
            (fun s => if s = 0 then [1, 1] else if s = 2 then [5] else ([] : List Nat))
            2 (f2 + 1) start
          = some ((fun s => if s = 0 then [1, 1] else if s = 2 then [5] else
              ([] : List Nat)) start ++ rest, k + 1)) :=
  c8_pagination_two_requests
    (fun s => if s = 0 then [1, 1] else if s = 2 then [5] else ([] : List Nat))
    2 2 (by decide) (by decide) (by decide)

/-! ## Claim C6: totality of the ID→Path Index -/

mutual

/-- Every node collected out of an assign_paths result has a path. -/
theorem assign_paths_all_some : ∀ (t : PageNode) (d : FsPath) (i : String),
    ∀ n ∈ collect_nodes (assign_paths t d i), n.path.isSome
  | .mk pid title children _, d, i, n, hn => by
    simp only [assign_paths, collect_nodes] at hn
    rcases List.mem_cons.1 hn with h | h
    · subst h; rfl
    · exact assign_paths_list_all_some children _ i n h

/-- The list version of assign_paths_all_some. -/
theorem assign_paths_list_all_some : ∀ (l : List PageNode) (d : FsPath) (i : String),
    ∀ n ∈ collect_nodes_list (assign_paths_list l d i), n.path.isSome
  | [], _, _, n, hn => by cases hn
  | c :: cs, d, i, n, hn => by
    simp only [assign_paths_list, collect_nodes_list] at hn
    rcases List.mem_append.1 hn with h | h
    · exact assign_paths_all_some c d i n h
    · exact assign_paths_list_all_some cs d i n h

end

/-- Folding indexStep over nodes none of which carry the key leaves the
accumulator's answer. -/
theorem foldl_indexStep_notmem : ∀ (nodes : List PageNode)
    (acc : String → Option FsPath) (k : String),
    (∀ m ∈ nodes, m.page_id ≠ k) → nodes.foldl indexStep acc k = acc k := by
  intro nodes
  induction nodes with
  | nil => intro acc k _; rfl
  | cons m rest ih =>
    intro acc k h
    rw [List.foldl_cons, ih _ k (fun x hx => h x (List.mem_cons_of_mem _ hx))]
    cases hm : m.path with
    | none => simp [indexStep, hm]
    | some p =>
      simp only [indexStep, hm]
      rw [if_neg]
      intro hk
      exact h m (List.mem_cons_self m rest) hk.symm

/-- With pairwise distinct ids, folding indexStep resolves every listed
node's id to its path. -/
theorem foldl_indexStep_mem : ∀ (nodes : List PageNode)
    (acc : String → Option FsPath) (n : PageNode) (p : FsPath),
    (nodes.map PageNode.page_id).Nodup → n ∈ nodes → n.path = some p →
    nodes.foldl indexStep acc n.page_id = some p := by
  intro nodes
  induction nodes with
  | nil => intro acc n p _ h; cases h
  | cons m rest ih =>
    intro acc n p hnd hmem hp
    rw [List.map_cons, List.nodup_cons] at hnd
    rcases List.mem_cons.1 hmem with rfl | hmem2
    · rw [List.foldl_cons,
        foldl_indexStep_notmem rest _ n.page_id (fun x hx heq =>
          hnd.1 (heq ▸ List.mem_map_of_mem PageNode.page_id hx))]
      simp [indexStep, hp]
    · exact ih _ n p hnd.2 hmem2 hp

/-- C6: after the two-phase run of main (build the tree, assign all
paths, collect the nodes, build the index), the ID→Path Index maps every
node's id to that node's assigned path — so it is total before any
export/rewrite call, whatever the traversal order. -/
theorem c6_index_total_before_rewrite (root : PageNode) (out_dir : FsPath)
    (index_name : String)
    (hnd : ((collect_nodes (assign_paths root out_dir index_name)).map
      PageNode.page_id).Nodup) :
    ∀ n ∈ collect_nodes (assign_paths root out_dir index_name),
      ∃ p, n.path = some p ∧
        buildIndex (collect_nodes (assign_paths root out_dir index_name)) n.page_id
          = some p := by
  intro n hn
  have hs := assign_paths_all_some root out_dir index_name n hn
  cases hpath : n.path with
  | none => rw [hpath] at hs; cases hs
  | some p => exact ⟨p, rfl, foldl_indexStep_mem _ _ n p hnd hn hpath⟩

/-- C6, witness: a two-node tree; the child's id resolves to the child's
assigned path in the index built from the collected nodes. -/
theorem c6_index_total_witness :
    ∃ p, (PageNode.mk "2" "c" [] (some ["r__1", "c__2", "index.md"])).path = some p ∧
      buildIndex
        (collect_nodes (assign_paths
          (.mk "1" "r" [.mk "2" "c" [] none] none) [] "index.md"))
        (PageNode.mk "2" "c" [] (some ["r__1", "c__2", "index.md"])).page_id
      = some p :=
  c6_index_total_before_rewrite (.mk "1" "r" [.mk "2" "c" [] none] none) [] "index.md"
    (by decide) (PageNode.mk "2" "c" [] (some ["r__1", "c__2", "index.md"])) (by decide)

/-! ## Claim C9: attachment downloads are skip-if-exists -/

/-- A present file survives a download step: writes only go to absent
targets. -/
theorem downloadStep_preserves (f : String → String) (b : String) (dir : FsPath)
    (st : FS × List String) (a : ExportConfluence.Attachment) (x : FsPath) (c : String)
    (hx : st.1 x = some c) :
    (ExportConfluence.downloadStep f b dir st a).1 x = some c := by
  cases hd : a.download with
  | none => simpa [ExportConfluence.downloadStep, hd] using hx
  | some d =>
    by_cases hde : d = ""
    · simpa [ExportConfluence.downloadStep, hd, hde] using hx
    · simp only [ExportConfluence.downloadStep, hd, if_neg hde]
      cases ht : st.1 (pyJoin dir (ExportConfluence.attFilename a d)) with
      | some v => exact hx
      | none =>
        simp only [updFS]
        rw [if_neg]
        · exact hx
        · intro hxx
          rw [hxx, ht] at hx
          cases hx

/-- A present file survives the whole download fold. -/
theorem download_foldl_preserves (f : String → String) (b : String) (dir : FsPath)
    (atts : List ExportConfluence.Attachment) :
    ∀ (st : FS × List String) (x : FsPath) (c : String), st.1 x = some c →
      (atts.foldl (ExportConfluence.downloadStep f b dir) st).1 x = some c := by
  induction atts with
  | nil => intro st x c h; exact h
  | cons a rest ih =>
    intro st x c h
    rw [List.foldl_cons]
    exact ih _ x c (downloadStep_preserves f b dir st a x c h)

/-- A step whose target already exists does nothing at all: no fetch, no
write. -/
theorem downloadStep_noop (f : String → String) (b : String) (dir : FsPath)
    (st : FS × List String) (a : ExportConfluence.Attachment)
    (h : ∀ d, a.download = some d → d ≠ "" →
      (st.1 (pyJoin dir (ExportConfluence.attFilename a d))).isSome) :
    ExportConfluence.downloadStep f b dir st a = st := by
  cases hd : a.download with
  | none => simp [ExportConfluence.downloadStep, hd]
  | some d =>
    by_cases hde : d = ""
    · simp [ExportConfluence.downloadStep, hd, hde]
    · have hs := h d hd hde
      cases ht : st.1 (pyJoin dir (ExportConfluence.attFilename a d)) with
      | none => rw [ht] at hs; cases hs
      | some v => simp [ExportConfluence.downloadStep, hd, hde, ht]

/-- When every target exists the fold does nothing: filesystem unchanged,
no URL fetched. -/
theorem download_foldl_noop (f : String → String) (b : String) (dir : FsPath)
    (atts : List ExportConfluence.Attachment) (fs : FS)
    (h : ∀ a ∈ atts, ∀ d, a.download = some d → d ≠ "" →
      (fs (pyJoin dir (ExportConfluence.attFilename a d))).isSome) :
    atts.foldl (ExportConfluence.downloadStep f b dir) (fs, []) = (fs, []) := by
  induction atts with
  | nil => rfl
  | cons a rest ih =>
    rw [List.foldl_cons,
      downloadStep_noop f b dir (fs, []) a (fun d hd hde =>
        h a (List.mem_cons_self a rest) d hd hde)]
    exact ih (fun x hx => h x (List.mem_cons_of_mem _ hx))

/-- After the fold, every attachment with a usable download link has its
target present. -/
theorem download_foldl_covered (f : String → String) (b : String) (dir : FsPath)
    (atts : List ExportConfluence.Attachment) :
    ∀ (st : FS × List String), ∀ a ∈ atts, ∀ d, a.download = some d → d ≠ "" →
      ((atts.foldl (ExportConfluence.downloadStep f b dir) st).1
        (pyJoin dir (ExportConfluence.attFilename a d))).isSome := by
  induction atts with
  | nil => intro st a ha; cases ha
  | cons a0 rest ih =>
    intro st a ha d hd hde
    rcases List.mem_cons.1 ha with rfl | hmem
    · rw [List.foldl_cons]
      have h1 : ((ExportConfluence.downloadStep f b dir st a).1
          (pyJoin dir (ExportConfluence.attFilename a d))).isSome := by
        simp only [ExportConfluence.downloadStep, hd, if_neg hde]
        cases ht : st.1 (pyJoin dir (ExportConfluence.attFilename a d)) with
        | some v => simp [ht]
        | none => simp [updFS]
      obtain ⟨c, hc⟩ := Option.isSome_iff_exists.1 h1
      rw [download_foldl_preserves f b dir rest _ _ c hc]
      rfl
    · rw [List.foldl_cons]
      exact ih _ a hmem d hd hde

/-- C9: an attachment whose target file already exists causes no fetch
and no change to the file; in particular a second download_attachments
run over the same listing returns the filesystem of the first unchanged
and fetches nothing. -/
theorem c9_attachment_skip (f : String → String) (b : String)
    (atts : List ExportConfluence.Attachment) (dir : FsPath) (fs : FS)
    (hall : ∀ a ∈ atts, ∀ d, a.download = some d → d ≠ "" →
      (fs (pyJoin dir (ExportConfluence.attFilename a d))).isSome) :
    ExportConfluence.download_attachments f b atts dir fs = (fs, [])
    ∧ ∀ fs0 : FS,
        ExportConfluence.download_attachments f b atts dir
          (ExportConfluence.download_attachments f b atts dir fs0).1
        = ((ExportConfluence.download_attachments f b atts dir fs0).1, []) := by
  constructor
  · exact download_foldl_noop f b dir atts fs hall
  · intro fs0
    apply download_foldl_noop
    intro a ha d hd hde
    exact download_foldl_covered f b dir atts (fs0, []) a ha d hd hde

/-- C9, witness: one attachment whose target file is already present. -/
theorem c9_attachment_skip_witness :
    ExportConfluence.download_attachments (fun _ => "bytes") "https://c"
        [⟨"f.png", some "/dl/f.png"⟩] ["root", "a", "attachments"]
        (fun x => if x = ["root", "a", "attachments", "f.png"] then some "data" else none)
      = ((fun x => if x = ["root", "a", "attachments", "f.png"] then some "data"
          else none), [])
    ∧ ∀ fs0 : FS,
        ExportConfluence.download_attachments (fun _ => "bytes") "https://c"
          [⟨"f.png", some "/dl/f.png"⟩] ["root", "a", "attachments"]
          (ExportConfluence.download_attachments (fun _ => "bytes") "https://c"
            [⟨"f.png", some "/dl/f.png"⟩] ["root", "a", "attachments"] fs0).1
        = ((ExportConfluence.download_attachments (fun _ => "bytes") "https://c"
            [⟨"f.png", some "/dl/f.png"⟩] ["root", "a", "attachments"] fs0).1, []) :=
  c9_attachment_skip (fun _ => "bytes") "https://c" [⟨"f.png", some "/dl/f.png"⟩]
    ["root", "a", "attachments"]
    (fun x => if x = ["root", "a", "attachments", "f.png"] then some "data" else none)
    (by
      intro a ha d hd hde
      rcases List.mem_cons.1 ha with rfl | hmem
      · injection hd with hd2
        subst hd2
        decide
      · cases hmem)

/-! ## Claim C7: export order independence -/

/-- One download step changes the filesystem only at its own target. -/
theorem downloadStep_frame (f : String → String) (b : String) (dir : FsPath)
    (st : FS × List String) (a : ExportConfluence.Attachment) (x : FsPath)
    (hx : ∀ d, a.download = some d → d ≠ "" →
      x ≠ pyJoin dir (ExportConfluence.attFilename a d)) :
    (ExportConfluence.downloadStep f b dir st a).1 x = st.1 x := by
  cases hd : a.download with
  | none => simp [ExportConfluence.downloadStep, hd]
  | some d =>
    by_cases hde : d = ""
    · simp [ExportConfluence.downloadStep, hd, hde]
    · simp only [ExportConfluence.downloadStep, hd, if_neg hde]
      cases ht : st.1 (pyJoin dir (ExportConfluence.attFilename a d)) with
      | some v => rfl
      | none => simp [updFS, hx d hd hde]

/-- The membership structure of an attTargetsL cons. -/
theorem attTargetsL_cons_subset (dir : FsPath) (a : ExportConfluence.Attachment)
    (rest : List ExportConfluence.Attachment) (x : FsPath) :
    x ∈ ExportConfluence.attTargetsL dir (a :: rest) ↔
      (∃ d, a.download = some d ∧ d ≠ "" ∧
        x = pyJoin dir (ExportConfluence.attFilename a d))
      ∨ x ∈ ExportConfluence.attTargetsL dir rest := by
  unfold ExportConfluence.attTargetsL
  rw [List.filterMap_cons]
  cases hd : a.download with
  | none => simp [hd]
  | some d =>
    by_cases hde : d = ""
    · simp [hd, hde]
    · simp only [if_neg hde, List.mem_cons]
      constructor
      · rintro (rfl | h)
        · exact Or.inl ⟨d, rfl, hde, rfl⟩
        · exact Or.inr h
      · rintro (⟨d2, hd2, _, rfl⟩ | h)
        · injection hd2 with hd3
          subst hd3
          exact Or.inl rfl
        · exact Or.inr h

/-- The download fold leaves every path outside its targets alone. -/
theorem download_foldl_frame (f : String → String) (b : String) (dir : FsPath)
    (atts : List ExportConfluence.Attachment) :
    ∀ (st : FS × List String) (x : FsPath),
      x ∉ ExportConfluence.attTargetsL dir atts →
      (atts.foldl (ExportConfluence.downloadStep f b dir) st).1 x = st.1 x := by
  induction atts with
  | nil => intro st x _; rfl
  | cons a rest ih =>
    intro st x hx
    have hx1 : ∀ d, a.download = some d → d ≠ "" →
        x ≠ pyJoin dir (ExportConfluence.attFilename a d) := by
      intro d hd hde hxx
      exact hx ((attTargetsL_cons_subset dir a rest x).2 (Or.inl ⟨d, hd, hde, hxx⟩))
    have hx2 : x ∉ ExportConfluence.attTargetsL dir rest := fun h =>
      hx ((attTargetsL_cons_subset dir a rest x).2 (Or.inr h))
    rw [List.foldl_cons, ih _ x hx2, downloadStep_frame f b dir st a x hx1]

/-- Two download folds from filesystems that agree on a superset of the
targets stay in agreement on that superset. -/
theorem download_foldl_agree (f : String → String) (b : String) (dir : FsPath)
    (atts : List ExportConfluence.Attachment) (T : List FsPath) :
    ∀ (st st' : FS × List String),
      (∀ y ∈ ExportConfluence.attTargetsL dir atts, y ∈ T) →
      (∀ y ∈ T, st.1 y = st'.1 y) →
      ∀ y ∈ T, (atts.foldl (ExportConfluence.downloadStep f b dir) st).1 y
        = (atts.foldl (ExportConfluence.downloadStep f b dir) st').1 y := by
  induction atts with
  | nil => intro st st' _ h y hy; exact h y hy
  | cons a rest ih =>
    intro st st' hsub h y hy
    have hsub2 : ∀ z ∈ ExportConfluence.attTargetsL dir rest, z ∈ T := fun z hz =>
      hsub z ((attTargetsL_cons_subset dir a rest z).2 (Or.inr hz))
    rw [List.foldl_cons, List.foldl_cons]
    apply ih _ _ hsub2 _ y hy
    intro z hz
    cases hd : a.download with
    | none => simpa [ExportConfluence.downloadStep, hd] using h z hz
    | some d =>
      by_cases hde : d = ""
      · simpa [ExportConfluence.downloadStep, hd, hde] using h z hz
      · have htT : pyJoin dir (ExportConfluence.attFilename a d) ∈ T :=
          hsub _ ((attTargetsL_cons_subset dir a rest _).2 (Or.inl ⟨d, hd, hde, rfl⟩))
        have hagt := h _ htT
        simp only [ExportConfluence.downloadStep, hd, if_neg hde]
        rw [← hagt]
        cases ht : st.1 (pyJoin dir (ExportConfluence.attFilename a d)) with
        | some v => exact h z hz
        | none =>
          simp only [updFS]
          by_cases hzz : z = pyJoin dir (ExportConfluence.attFilename a d)
          · simp [hzz]
          · simp [hzz, h z hz]

/-- export_page unfolded at a node with an assigned path. -/
theorem export_page_cases (r : ExportConfluence.Responses)
    (attrsOf : String → List (Option String)) (conv : List (Option String) → String)
    (idx : String → Option FsPath) (n : PageNode) (p : FsPath) (fs : FS)
    (hp : n.path = some p) :
    ExportConfluence.export_page r attrsOf conv idx n fs
      = (if n.children.isEmpty then
          updFS ((r.attachments n.page_id).foldl
              (ExportConfluence.downloadStep r.fetchContent r.base_url
                (p.dropLast ++ ["attachments"])) (fs, [])).1
            p ("# " ++ n.title ++ "\n\n" ++ conv (ExportConfluence.rewrite_links idx p
              (p.dropLast ++ ["attachments"])
              (attrsOf (ExportConfluence.pageHtml r n.page_id))))
        else
          updFS
            (updFS ((r.attachments n.page_id).foldl
              (ExportConfluence.downloadStep r.fetchContent r.base_url
                (p.dropLast ++ ["attachments"])) (fs, [])).1
              p ("# " ++ n.title ++ "\n\n" ++ conv (ExportConfluence.rewrite_links idx p
                (p.dropLast ++ ["attachments"])
                (attrsOf (ExportConfluence.pageHtml r n.page_id)))))
            (p.dropLast ++ ["children.md"])
            (ExportConfluence.childrenIndex idx p.dropLast n.children)) := by
  simp only [ExportConfluence.export_page, hp, ExportConfluence.download_attachments]

/-- export_page changes nothing outside the node's footprint. -/
theorem export_page_frame (r : ExportConfluence.Responses)
    (attrsOf : String → List (Option String)) (conv : List (Option String) → String)
    (idx : String → Option FsPath) (n : PageNode) (fs : FS) (x : FsPath)
    (hx : x ∉ ExportConfluence.footprint r n) :
    ExportConfluence.export_page r attrsOf conv idx n fs x = fs x := by
  cases hp : n.path with
  | none => simp [ExportConfluence.export_page, hp]
  | some p =>
    rw [show ExportConfluence.footprint r n =
        ExportConfluence.attTargetsL (p.dropLast ++ ["attachments"])
            (r.attachments n.page_id)
          ++ [p]
          ++ (if n.children.isEmpty then []
              else [p.dropLast ++ ["children.md"]]) from by
      simp [ExportConfluence.footprint, hp, ExportConfluence.attachmentTargets]] at hx
    have hxa : x ∉ ExportConfluence.attTargetsL (p.dropLast ++ ["attachments"])
        (r.attachments n.page_id) := fun h => hx (by
      simp only [List.mem_append]
      exact Or.inl (Or.inl h))
    have hxp : x ≠ p := fun h => hx (by
      simp only [List.mem_append, List.mem_cons]
      exact Or.inl (Or.inr (Or.inl h)))
    rw [export_page_cases r attrsOf conv idx n p fs hp]
    cases hch : n.children.isEmpty with
    | true =>
      rw [if_pos rfl]
      simp only [updFS, if_neg hxp]
      exact download_foldl_frame _ _ _ _ _ x hxa
    | false =>
      have hxc : x ≠ p.dropLast ++ ["children.md"] := by
        intro hxx
        rw [hch] at hx
        apply hx
        simp only [List.mem_append]
        exact Or.inr (by simp [hxx])
      rw [if_neg (by simp)]
      simp only [updFS, if_neg hxp, if_neg hxc]
      exact download_foldl_frame _ _ _ _ _ x hxa

/-- On its own footprint, export_page depends on the filesystem only
through the footprint. -/
theorem export_page_agree (r : ExportConfluence.Responses)
    (attrsOf : String → List (Option String)) (conv : List (Option String) → String)
    (idx : String → Option FsPath) (n : PageNode) (fs fs' : FS)
    (h : ∀ y ∈ ExportConfluence.footprint r n, fs y = fs' y) :
    ∀ x ∈ ExportConfluence.footprint r n,
      ExportConfluence.export_page r attrsOf conv idx n fs x
        = ExportConfluence.export_page r attrsOf conv idx n fs' x := by
  intro x hx
  cases hp : n.path with
  | none =>
    rw [show ExportConfluence.footprint r n = [] from by
      simp [ExportConfluence.footprint, hp]] at hx
    cases hx
  | some p =>
    have hfp : ExportConfluence.footprint r n =
        ExportConfluence.attTargetsL (p.dropLast ++ ["attachments"])
            (r.attachments n.page_id)
          ++ [p]
          ++ (if n.children.isEmpty then []
              else [p.dropLast ++ ["children.md"]]) := by
      simp [ExportConfluence.footprint, hp, ExportConfluence.attachmentTargets]
    have hT : ∀ y ∈ ExportConfluence.attTargetsL (p.dropLast ++ ["attachments"])
        (r.attachments n.page_id), fs y = fs' y := by
      intro y hy
      apply h
      rw [hfp]
      simp only [List.mem_append]
      exact Or.inl (Or.inl hy)
    have hagree := download_foldl_agree r.fetchContent r.base_url
      (p.dropLast ++ ["attachments"]) (r.attachments n.page_id) _
      (fs, []) (fs', []) (fun y hy => hy) hT
    rw [export_page_cases r attrsOf conv idx n p fs hp,
      export_page_cases r attrsOf conv idx n p fs' hp]
    rw [hfp] at hx
    cases hch : n.children.isEmpty with
    | true =>
      rw [if_pos rfl, if_pos rfl]
      by_cases hxp : x = p
      · subst hxp
        simp [updFS]
      · simp only [updFS, if_neg hxp]
        rw [hch] at hx
        simp at hx
        rcases hx with h1 | h1
        · exact hagree x h1
        · exact absurd h1 hxp
    | false =>
      rw [if_neg (by simp), if_neg (by simp)]
      by_cases hxc : x = p.dropLast ++ ["children.md"]
      · subst hxc
        simp [updFS]
      · simp only [updFS, if_neg hxc]
        by_cases hxp : x = p
        · subst hxp
          simp
        · simp only [if_neg hxp]
          rw [hch] at hx
          simp at hx
          rcases hx with h1 | h1 | h1
          · exact hagree x h1
          · exact absurd h1 hxp
          · exact absurd h1 hxc

/-- Exports of two nodes with disjoint footprints commute. -/
theorem export_page_comm (r : ExportConfluence.Responses)
    (attrsOf : String → List (Option String)) (conv : List (Option String) → String)
    (idx : String → Option FsPath) (m n : PageNode)
    (hdisj : ∀ x ∈ ExportConfluence.footprint r m, x ∉ ExportConfluence.footprint r n)
    (fs : FS) :
    ExportConfluence.export_page r attrsOf conv idx n
        (ExportConfluence.export_page r attrsOf conv idx m fs)
      = ExportConfluence.export_page r attrsOf conv idx m
          (ExportConfluence.export_page r attrsOf conv idx n fs) := by
  funext x
  by_cases hm : x ∈ ExportConfluence.footprint r m
  · have hn : x ∉ ExportConfluence.footprint r n := hdisj x hm
    rw [export_page_frame r attrsOf conv idx n _ x hn]
    exact export_page_agree r attrsOf conv idx m fs
      (ExportConfluence.export_page r attrsOf conv idx n fs)
      (fun y hy => (export_page_frame r attrsOf conv idx n fs y (hdisj y hy)).symm)
      x hm
  · by_cases hn : x ∈ ExportConfluence.footprint r n
    · rw [export_page_frame r attrsOf conv idx m _ x hm]
      exact (export_page_agree r attrsOf conv idx n fs
        (ExportConfluence.export_page r attrsOf conv idx m fs)
        (fun y hy => (export_page_frame r attrsOf conv idx m fs y
          (fun hym => hdisj y hym hy)).symm)
        x hn).symm
    · rw [export_page_frame r attrsOf conv idx n _ x hn,
        export_page_frame r attrsOf conv idx m _ x hm,
        export_page_frame r attrsOf conv idx m _ x hm,
        export_page_frame r attrsOf conv idx n _ x hn]

/-- Folding export_page over any permutation of a list of nodes with
pairwise disjoint footprints gives the same filesystem. -/
theorem export_all_perm (r : ExportConfluence.Responses)
    (attrsOf : String → List (Option String)) (conv : List (Option String) → String)
    (idx : String → Option FsPath) (nodes nodes2 : List PageNode) (fs : FS)
    (hpair : nodes.Pairwise (fun m n =>
      ∀ x ∈ ExportConfluence.footprint r m, x ∉ ExportConfluence.footprint r n))
    (hperm : nodes.Perm nodes2) :
    ExportConfluence.export_all r attrsOf conv idx nodes fs
      = ExportConfluence.export_all r attrsOf conv idx nodes2 fs := by
  unfold ExportConfluence.export_all
  apply List.Perm.foldl_eq' hperm
  intro m hm n hn fs0
  by_cases hmn : m = n
  · subst hmn; rfl
  · have hsymm : Symmetric (fun m n =>
        ∀ x ∈ ExportConfluence.footprint r m, x ∉ ExportConfluence.footprint r n) :=
      fun a b hab y hy hya => hab y hya hy
    exact export_page_comm r attrsOf conv idx m n
      (hpair.forall hsymm hm hn hmn) fs0

/-- Every safe directory name contains an underscore. -/
theorem safeName_has_underscore (t i : String) : '_' ∈ (safeName t i).data := by
  rw [safeName_data]
  exact List.mem_append.2 (Or.inr (List.mem_cons_self _ _))

mutual

/-- Every node collected from an assign_paths result sits at
base ++ safes ++ [index_name] for a nonempty chain of safe directory
names ending in its own. -/
theorem assign_paths_decomp : ∀ (t : PageNode) (d : FsPath) (i : String),
    ∀ n ∈ collect_nodes (assign_paths t d i), ∃ safes : List String,
      n.path = some (d ++ (safes ++ [i]))
      ∧ safes.getLast? = some (safeName n.title n.page_id)
      ∧ ∀ s ∈ safes, ∃ ttl pid, s = safeName ttl pid
  | .mk pid title children _, d, i, n, hn => by
    simp only [assign_paths, collect_nodes] at hn
    rcases List.mem_cons.1 hn with h | h
    · subst h
      refine ⟨[safeName title pid], ?_, by simp [PageNode.title, PageNode.page_id], ?_⟩
      · simp [PageNode.path]
      · intro s hs
        rcases List.mem_cons.1 hs with rfl | h2
        · exact ⟨title, pid, rfl⟩
        · cases h2
    · obtain ⟨safes, h1, h2, h3⟩ :=
        assign_paths_list_decomp children (d ++ [safeName title pid]) i n h
      refine ⟨safeName title pid :: safes, ?_, ?_, ?_⟩
      · rw [h1]
        congr 1
        simp
      · cases safes with
        | nil => simp at h2
        | cons a l => rw [List.getLast?_cons_cons]; exact h2
      · intro s hs
        rcases List.mem_cons.1 hs with rfl | h4
        · exact ⟨title, pid, rfl⟩
        · exact h3 s h4

/-- The list version of assign_paths_decomp. -/
theorem assign_paths_list_decomp : ∀ (l : List PageNode) (d : FsPath) (i : String),
    ∀ n ∈ collect_nodes_list (assign_paths_list l d i), ∃ safes : List String,
      n.path = some (d ++ (safes ++ [i]))
      ∧ safes.getLast? = some (safeName n.title n.page_id)
      ∧ ∀ s ∈ safes, ∃ ttl pid, s = safeName ttl pid
  | [], _, _, n, hn => by cases hn
  | c :: cs, d, i, n, hn => by
    simp only [assign_paths_list, collect_nodes_list] at hn
    rcases List.mem_append.1 hn with h | h
    · exact assign_paths_decomp c d i n h
    · exact assign_paths_list_decomp cs d i n h

end

/-- A chain of safe names followed by a single file name can never equal a
chain of safe names followed by "attachments" and more. -/
theorem single_ne_attach {s s' : List String} {a : String} {g : List String}
    (hs : ∀ seg ∈ s, '_' ∈ seg.data) (hg : g ≠ [])
    (h : s ++ [a] = s' ++ "attachments" :: g) : False := by
  have hlen : s.length + 1 = s'.length + (g.length + 1) := by
    have := congrArg List.length h
    simpa using this
  have hglen : 1 ≤ g.length := by
    cases g with
    | nil => exact absurd rfl hg
    | cons _ _ => simp
  have hlt : s'.length < s.length := by omega
  have h3 := congrArg (fun l => l[s'.length]?) h
  simp only at h3
  rw [List.getElem?_append_left hlt] at h3
  rw [List.getElem?_append_right (Nat.le_refl s'.length)] at h3
  simp only [Nat.sub_self, List.getElem?_cons_zero] at h3
  have hmem := List.getElem?_mem h3
  have := hs _ hmem
  simp at this

/-- Two attachments files below different safe chains differ. -/
theorem attach_ne_attach {s s' f g : List String}
    (hss : s ≠ s') (hs : ∀ seg ∈ s, '_' ∈ seg.data)
    (hs' : ∀ seg ∈ s', '_' ∈ seg.data)
    (h : s ++ "attachments" :: f = s' ++ "attachments" :: g) : False := by
  rcases Nat.lt_trichotomy s.length s'.length with hlt | heq | hgt
  · have h3 := congrArg (fun l => l[s.length]?) h
    simp only at h3
    rw [List.getElem?_append_right (Nat.le_refl s.length)] at h3
    rw [List.getElem?_append_left hlt] at h3
    simp only [Nat.sub_self, List.getElem?_cons_zero] at h3
    have hmem := List.getElem?_mem h3.symm
    have := hs' _ hmem
    simp at this
  · exact hss (List.append_inj h heq).1
  · have h3 := congrArg (fun l => l[s'.length]?) h.symm
    simp only at h3
    rw [List.getElem?_append_right (Nat.le_refl s'.length)] at h3
    rw [List.getElem?_append_left hgt] at h3
    simp only [Nat.sub_self, List.getElem?_cons_zero] at h3
    have hmem := List.getElem?_mem h3.symm
    have := hs _ hmem
    simp at this

/-- Output files of nodes with different safe chains never collide. -/
theorem node_paths_disjoint {d : FsPath} {s s' t t' : List String}
    (hss : s ≠ s')
    (hs : ∀ seg ∈ s, '_' ∈ seg.data) (hs' : ∀ seg ∈ s', '_' ∈ seg.data)
    (ht : (∃ a, t = [a]) ∨ ∃ f, f ≠ [] ∧ t = "attachments" :: f)
    (ht' : (∃ a, t' = [a]) ∨ ∃ f, f ≠ [] ∧ t' = "attachments" :: f) :
    d ++ (s ++ t) ≠ d ++ (s' ++ t') := by
  intro heq
  have h2 : s ++ t = s' ++ t' := List.append_cancel_left heq
  rcases ht with ⟨a, rfl⟩ | ⟨f, hf, rfl⟩ <;> rcases ht' with ⟨b, rfl⟩ | ⟨g, hg, rfl⟩
  · exact hss (List.append_inj' h2 rfl).1
  · exact single_ne_attach hs hg h2
  · exact single_ne_attach hs' hf h2.symm
  · exact attach_ne_attach hss hs hs' h2

/-- Unfolding membership of the attachment target list. -/
theorem attTargetsL_mem {dir : FsPath} {atts : List ExportConfluence.Attachment}
    {x : FsPath} (h : x ∈ ExportConfluence.attTargetsL dir atts) :
    ∃ a ∈ atts, ∃ dl, a.download = some dl ∧ dl ≠ "" ∧
      x = pyJoin dir (ExportConfluence.attFilename a dl) := by
  unfold ExportConfluence.attTargetsL at h
  obtain ⟨a, ha, hfa⟩ := List.mem_filterMap.1 h
  refine ⟨a, ha, ?_⟩
  cases hd : a.download with
  | none =>
    rw [hd] at hfa
    exact absurd (hfa : (none : Option FsPath) = some x) (by simp)
  | some dl =>
    rw [hd] at hfa
    have hfa2 : (if dl = "" then none
        else some (pyJoin dir (ExportConfluence.attFilename a dl))) = some x := hfa
    by_cases hde : dl = ""
    · rw [if_pos hde] at hfa2
      cases hfa2
    · rw [if_neg hde] at hfa2
      injection hfa2 with hfa3
      exact ⟨dl, rfl, hde, hfa3.symm⟩

/-- Every path of a node's footprint is its directory chain plus a tail
of one of the two recognised shapes. -/
theorem footprint_shape (r : ExportConfluence.Responses) (n : PageNode)
    (d : FsPath) (i : String) (safes : List String)
    (hpath : n.path = some (d ++ (safes ++ [i])))
    (hfn : ∀ a ∈ r.attachments n.page_id, ∀ dl, a.download = some dl → dl ≠ "" →
      startsWithL (ExportConfluence.attFilename a dl) "/" = false
      ∧ fnSegs (ExportConfluence.attFilename a dl) ≠ []) :
    ∀ x ∈ ExportConfluence.footprint r n, ∃ t,
      ((∃ a, t = [a]) ∨ ∃ f, f ≠ [] ∧ t = "attachments" :: f)
      ∧ x = d ++ (safes ++ t) := by
  intro x hx
  have hdrop : (d ++ (safes ++ [i])).dropLast = d ++ safes := by
    rw [show d ++ (safes ++ [i]) = (d ++ safes) ++ [i] by simp]
    exact List.dropLast_concat
  rw [show ExportConfluence.footprint r n =
      ExportConfluence.attTargetsL ((d ++ (safes ++ [i])).dropLast ++ ["attachments"])
          (r.attachments n.page_id)
        ++ [d ++ (safes ++ [i])]
        ++ (if n.children.isEmpty then []
            else [(d ++ (safes ++ [i])).dropLast ++ ["children.md"]]) from by
    simp [ExportConfluence.footprint, hpath, ExportConfluence.attachmentTargets]] at hx
  rw [hdrop] at hx
  rcases List.mem_append.1 hx with hx1 | hx1
  · rcases List.mem_append.1 hx1 with hx2 | hx2
    · obtain ⟨a, ha, dl, hdl, hde, rfl⟩ := attTargetsL_mem hx2
      have hcond := hfn a ha dl hdl hde
      refine ⟨"attachments" :: fnSegs (ExportConfluence.attFilename a dl),
        Or.inr ⟨fnSegs (ExportConfluence.attFilename a dl), hcond.2, rfl⟩, ?_⟩
      rw [pyJoin, hcond.1]
      simp
    · simp only [List.mem_cons, List.not_mem_nil, or_false] at hx2
      exact ⟨[i], Or.inl ⟨i, rfl⟩, hx2⟩
  · cases hch : n.children.isEmpty
    · rw [hch] at hx1
      simp only [if_neg (Bool.false_ne_true), List.mem_cons, List.not_mem_nil,
        or_false] at hx1
      refine ⟨["children.md"], Or.inl ⟨"children.md", rfl⟩, ?_⟩
      rw [hx1]
      simp
    · rw [hch] at hx1
      simp at hx1

/-- With distinct underscore-free ids and clean attachment filenames, the
footprints of the collected nodes are pairwise disjoint. -/
theorem footprints_pairwise_disjoint (r : ExportConfluence.Responses)
    (root : PageNode) (d : FsPath) (i : String)
    (hnd : ((collect_nodes (assign_paths root d i)).map PageNode.page_id).Nodup)
    (hus : ∀ n ∈ collect_nodes (assign_paths root d i), '_' ∉ n.page_id.data)
    (hfn : ∀ n ∈ collect_nodes (assign_paths root d i), ∀ a ∈ r.attachments n.page_id,
      ∀ dl, a.download = some dl → dl ≠ "" →
      startsWithL (ExportConfluence.attFilename a dl) "/" = false
      ∧ fnSegs (ExportConfluence.attFilename a dl) ≠ []) :
    (collect_nodes (assign_paths root d i)).Pairwise (fun m n =>
      ∀ x ∈ ExportConfluence.footprint r m, x ∉ ExportConfluence.footprint r n) := by
  have hpw : (collect_nodes (assign_paths root d i)).Pairwise
      (fun m n => m.page_id ≠ n.page_id) := List.pairwise_map.1 hnd
  refine List.Pairwise.imp_of_mem ?_ hpw
  intro m n hm hn hne x hxm hxn
  obtain ⟨sm, hpm, hlm, hsm⟩ := assign_paths_decomp root d i m hm
  obtain ⟨sn, hpn, hln, hsn⟩ := assign_paths_decomp root d i n hn
  have hss : sm ≠ sn := by
    intro he
    rw [he, hln] at hlm
    have hsafe := Option.some.inj hlm
    exact hne (safeName_inj_id n.title m.title n.page_id m.page_id
      (hus n hn) (hus m hm) hsafe).symm
  obtain ⟨t, hts, hxt⟩ := footprint_shape r m d i sm hpm (hfn m hm) x hxm
  obtain ⟨t2, hts2, hxt2⟩ := footprint_shape r n d i sn hpn (hfn n hn) x hxn
  refine node_paths_disjoint hss ?_ ?_ hts hts2 (hxt.symm.trans hxt2)
  · intro seg hseg
    obtain ⟨tt, pp, rfl⟩ := hsm seg hseg
    exact safeName_has_underscore tt pp
  · intro seg hseg
    obtain ⟨tt, pp, rfl⟩ := hsn seg hseg
    exact safeName_has_underscore tt pp

/-- C7: over a built tree with assigned paths, fixed responses and the
read-only index, exporting the collected nodes in any permutation
produces the same filesystem: export_page writes only the node's own
content file, attachment files and children index, reading the
filesystem only at its own attachment targets. The hypotheses state the
data-model invariants: ids are pairwise distinct and (as Confluence
numeric ids) contain no underscore, and attachment filenames are plain
relative names. -/
theorem c7_export_order_independent (r : ExportConfluence.Responses)
    (attrsOf : String → List (Option String)) (conv : List (Option String) → String)
    (idx : String → Option FsPath) (root : PageNode) (out_dir : FsPath)
    (index_name : String) (nodes2 : List PageNode) (fs : FS)
    (hnd : ((collect_nodes (assign_paths root out_dir index_name)).map
      PageNode.page_id).Nodup)
    (hus : ∀ n ∈ collect_nodes (assign_paths root out_dir index_name),
      '_' ∉ n.page_id.data)
    (hfn : ∀ n ∈ collect_nodes (assign_paths root out_dir index_name),
      ∀ a ∈ r.attachments n.page_id, ∀ dl, a.download = some dl → dl ≠ "" →
      startsWithL (ExportConfluence.attFilename a dl) "/" = false
      ∧ fnSegs (ExportConfluence.attFilename a dl) ≠ [])
    (hperm : (collect_nodes (assign_paths root out_dir index_name)).Perm nodes2) :
    ExportConfluence.export_all r attrsOf conv idx
        (collect_nodes (assign_paths root out_dir index_name)) fs
      = ExportConfluence.export_all r attrsOf conv idx nodes2 fs :=
  export_all_perm r attrsOf conv idx _ nodes2 fs
    (footprints_pairwise_disjoint r root out_dir index_name hnd hus hfn) hperm

/-- C7, witness: a three-node tree exported in reverse order. -/
theorem c7_export_order_witness :
    ExportConfluence.export_all
        ⟨fun _ => none, fun _ => "", "", fun _ => [], fun _ => ""⟩
        (fun _ => []) (fun _ => "") (fun _ => none)
        (collect_nodes (assign_paths
          (.mk "1" "r" [.mk "2" "c" [] none, .mk "3" "d" [] none] none)
          ["out"] "index.md"))
        (fun _ => none)
      = ExportConfluence.export_all
          ⟨fun _ => none, fun _ => "", "", fun _ => [], fun _ => ""⟩
          (fun _ => []) (fun _ => "") (fun _ => none)
          ((collect_nodes (assign_paths
            (.mk "1" "r" [.mk "2" "c" [] none, .mk "3" "d" [] none] none)
            ["out"] "index.md")).reverse)
          (fun _ => none) :=
  c7_export_order_independent
    ⟨fun _ => none, fun _ => "", "", fun _ => [], fun _ => ""⟩
    (fun _ => []) (fun _ => "") (fun _ => none)
    (.mk "1" "r" [.mk "2" "c" [] none, .mk "3" "d" [] none] none)
    ["out"] "index.md" _ (fun _ => none)
    (by decide)
    (by decide)
    (by
      intro n hn a ha
      cases ha)
    (List.reverse_perm _).symm

/-! ## Claim C10: build_html_map collisions -/

/-- C10: an input tree holding both x.html and x.htm maps both source
files to the output path out/x.md; the conversion loop then writes both
conversions there, first the .html one, and the .htm one (converted
later) silently overwrites it. -/
theorem c10_html_map_collision (convFile : String → String) (fs : FS) :
    ExportHtmlToMd.build_html_map ["x.html"] ["x.htm"] ["out"]
      = [("x.html", ["out", "x.md"]), ("x.htm", ["out", "x.md"])]
    ∧ ExportHtmlToMd.convert_all convFile
        (ExportHtmlToMd.build_html_map ["x.html"] [] ["out"]) fs ["out", "x.md"]
      = some (convFile "x.html")
    ∧ ExportHtmlToMd.convert_all convFile
        (ExportHtmlToMd.build_html_map ["x.html"] ["x.htm"] ["out"]) fs ["out", "x.md"]
      = some (convFile "x.htm") := by
  refine ⟨by decide, ?_, ?_⟩
  · show updFS fs ["out", "x.md"] (convFile "x.html") ["out", "x.md"]
      = some (convFile "x.html")
    simp [updFS]
  · show updFS (updFS fs ["out", "x.md"] (convFile "x.html")) ["out", "x.md"]
        (convFile "x.htm") ["out", "x.md"]
      = some (convFile "x.htm")
    simp [updFS]

end Conf2Md
